import Mathlib

/-!
Shallow embedding of the synthetic tick generation engine of
`src/data_generator/tick_generator.py` (class `SyntheticTickGenerator`),
together with proofs of the specification's claims about it.

Modelling conventions:

* Python/numpy floats are modelled as rationals (`ℚ`); `round(x, 4)` is
  `round4`, `astype(int)` / `int(...)` truncation toward zero is `trunc`.
* numpy's global random stream (`np.random....`) is modelled as a fixed
  realization `RandomStream` — one countable family of standard-normal
  draws and one of uniform-[0,1) draws — together with an explicit read
  position `StreamPos` that every drawing operation advances.
  `np.random.seed(seed)` resets the read position to zero (the stream
  itself being the realization determined by the seed).
  `np.random.normal(loc, scale, k)` reads `k` standard draws `z` and
  returns `loc + scale * z`; it raises `ValueError` when `scale < 0`.
  `np.random.choice(["buy","sell"], p=[p, 1-p])` is modelled as reading
  one uniform draw `u` and answering `buy` iff `u < p`;
  `np.random.uniform(lo, hi)` reads one uniform draw `u` and returns
  `lo + (hi - lo) * u`.
* Fallible operations return `Except GenError`; the error constructors
  name the Python exceptions (or, for `nanVolumes`, the IEEE NaNs arising
  from a zero weight sum, which have no rational counterpart).
* Timestamps are rationals counting seconds; `timedelta`'s microsecond
  quantization of `60 / num_ticks` is abstracted away.
-/

/-- Aggressor side of a synthesized trade (the `side` column). -/
inductive Side where
  | buy
  | sell
deriving DecidableEq, Repr

/-- One synthesized tick record, as appended to `all_ticks` in
`SyntheticTickGenerator.generate_ticks` (lines 98–105 of the source). -/
structure Tick where
  timestamp : ℚ
  bid : ℚ
  ask : ℚ
  trade_price : ℚ
  volume : ℤ
  side : Side
deriving DecidableEq, Repr

/-- An input OHLCV row as it arrives in `ohlcv_df`: any of the five
fields may be missing (NaN), which `dropna` filters out. -/
structure RawCandle where
  timestamp : ℚ
  Open : Option ℚ
  High : Option ℚ
  Low : Option ℚ
  Close : Option ℚ
  Volume : Option ℚ
deriving DecidableEq, Repr

/-- A retained candle: all five OHLCV fields present. -/
structure Candle where
  timestamp : ℚ
  Open : ℚ
  High : ℚ
  Low : ℚ
  Close : ℚ
  Volume : ℚ
deriving DecidableEq, Repr

/-- `ohlcv_df.dropna(subset=["Open","High","Low","Close","Volume"])`
(line 58): keep exactly the rows with all five fields present. -/
def dropna (raw : List RawCandle) : List Candle :=
  raw.filterMap (fun r =>
    match r.Open, r.High, r.Low, r.Close, r.Volume with
    | some o, some h, some l, some c, some v =>
        some { timestamp := r.timestamp, Open := o, High := h, Low := l, Close := c, Volume := v }
    | _, _, _, _, _ => none)

/-- The constructor arguments of `SyntheticTickGenerator.__init__`
(lines 14–39), stored unchanged on the instance. -/
structure GeneratorConfig where
  ticks_per_min : ℤ
  spread_mean : ℚ
  spread_vol : ℚ
  vol_noise : ℚ
  trend_weight : ℚ
  seed : ℤ
deriving DecidableEq, Repr

/-- A realization of numpy's global pseudorandom stream: the standard
normal draws and the uniform-[0,1) draws, indexed by consumption order. -/
structure RandomStream where
  norm : ℕ → ℚ
  unif : ℕ → ℚ

/-- Current read position into the two draw families of the global
stream.  `np.random.seed` resets both indices to zero. -/
structure StreamPos where
  n : ℕ
  u : ℕ
deriving DecidableEq, Repr

/-- A uniform draw is a real realization only when it lies in [0,1). -/
def RandomStream.Valid (ω : RandomStream) : Prop :=
  ∀ k, 0 ≤ ω.unif k ∧ ω.unif k < 1

/-- The Python exceptions (and NaN outcome) the engine can produce. -/
inductive GenError where
  | valueErrorScale
  | valueErrorSize
  | zeroDivisionError
  | keyErrorTimestamp
  | nanVolumes
deriving DecidableEq, Repr

/-- The values returned by `np.random.normal(loc, scale, k)` when it
succeeds: `k` scaled standard draws read at positions `c.n, …`.
(The call raises `ValueError` when `scale < 0`; the callers below
model that error branch explicitly.) -/
def normalsList (ω : RandomStream) (c : StreamPos) (loc scale : ℚ) (k : ℕ) : List ℚ :=
  (List.range k).map (fun i => loc + scale * ω.norm (c.n + i))

/-- `round(x, 4)`: round to four decimal places. -/
def round4 (x : ℚ) : ℚ := ((round (x * 10000) : ℤ) : ℚ) / 10000

/-- `astype(int)` / `int(...)`: truncation toward zero. -/
def trunc (x : ℚ) : ℤ := if 0 ≤ x then ⌊x⌋ else ⌈x⌉

/-- `np.clip(x, lo, hi)`. -/
def clip (x lo hi : ℚ) : ℚ := min (max x lo) hi

/-- Element `i` of `np.linspace(s, e, k)`. -/
def linspaceAt (s e : ℚ) (k i : ℕ) : ℚ :=
  if k = 1 then s else s + (e - s) * i / ((k - 1 : ℕ) : ℚ)

/-- The mid prices built by `_generate_midpath` before being returned:
`np.linspace(open, close, k)` plus the trend drift
`trend_weight * (close - open) * np.linspace(0, 1, k)` plus the
Gaussian noise of scale `(high - low) / 200`, clipped into
[Low, High]. -/
def midpath_values (cfg : GeneratorConfig) (ω : RandomStream) (row : Candle)
    (k : ℕ) (c : StreamPos) : List ℚ :=
  (List.range k).map (fun i =>
    clip (linspaceAt row.Open row.Close k i
        + cfg.trend_weight * (row.Close - row.Open) * linspaceAt 0 1 k i
        + (normalsList ω c 0 ((row.High - row.Low) / 200) k).getD i 0)
      row.Low row.High)

/-- `SyntheticTickGenerator._generate_midpath` (lines 181–198).
Error branches: `np.linspace` raises `ValueError` on a negative sample
count, and the noise draw raises `ValueError` when its scale
`(High - Low) / 200` is negative; it consumes `num_ticks` normal
draws. -/
def generate_midpath (cfg : GeneratorConfig) (ω : RandomStream) (row : Candle)
    (num_ticks : ℤ) (c : StreamPos) : Except GenError (List ℚ × StreamPos) :=
  if num_ticks < 0 then .error .valueErrorSize
  else if (row.High - row.Low) / 200 < 0 then .error .valueErrorScale
  else .ok (midpath_values cfg ω row num_ticks.toNat c, ⟨c.n + num_ticks.toNat, c.u⟩)

/-- The folded-normal weights of `_allocate_volumes`:
`np.abs(np.random.normal(1, vol_noise, k))`. -/
def vol_weights (cfg : GeneratorConfig) (ω : RandomStream) (c : StreamPos) (k : ℕ) : List ℚ :=
  (normalsList ω c 1 cfg.vol_noise k).map (fun g => |g|)

/-- `SyntheticTickGenerator._allocate_volumes` (lines 200–213):
folded-normal weights, normalized to sum 1, scaled by the candle volume
and truncated to integers.  Error branches: the weight draw raises
`ValueError` on a negative scale or sample count; a zero weight sum
over a positive count makes `weights /= weights.sum()` an IEEE 0/0,
i.e. NaN volumes, modelled as the explicit outcome `nanVolumes`
(an empty weight array divides elementwise over nothing and stays
empty).  It consumes `num_ticks` normal draws. -/
def allocate_volumes (cfg : GeneratorConfig) (ω : RandomStream) (total_volume : ℚ)
    (num_ticks : ℤ) (c : StreamPos) : Except GenError (List ℤ × StreamPos) :=
  if num_ticks < 0 then .error .valueErrorSize
  else if cfg.vol_noise < 0 then .error .valueErrorScale
  else if num_ticks.toNat = 0 then .ok ([], ⟨c.n + num_ticks.toNat, c.u⟩)
  else if (vol_weights cfg ω c num_ticks.toNat).sum = 0 then .error .nanVolumes
  else .ok ((vol_weights cfg ω c num_ticks.toNat).map
              (fun w => trunc (w / (vol_weights cfg ω c num_ticks.toNat).sum * total_volume)),
            ⟨c.n + num_ticks.toNat, c.u⟩)

/-- `SyntheticTickGenerator._generate_spread` (lines 165–179) applied to
one already-drawn standard draw `z`: spread fraction
`spread_mean + spread_vol * z`, bid/ask symmetric around the mid. -/
def generate_spread (cfg : GeneratorConfig) (z mid_price : ℚ) : ℚ × ℚ :=
  let spread := mid_price * (cfg.spread_mean + cfg.spread_vol * z)
  (mid_price - spread / 2, mid_price + spread / 2)

/-- The body of the per-tick loop (lines 84–106) for tick `i` of a
candle: one spread draw (normal index `c.n + i`), one side draw and one
slippage draw (uniform indices `c.u + 2i`, `c.u + 2i + 1`). -/
def synth_tick (cfg : GeneratorConfig) (ω : RandomStream) (c : StreamPos) (row : Candle)
    (k : ℕ) (mids : List ℚ) (vols : List ℤ) (i : ℕ) : Tick :=
  let mid := mids.getD i 0
  let ba := generate_spread cfg (ω.norm (c.n + i)) mid
  let prob_buy : ℚ := if row.Open < row.Close then 55 / 100 else 45 / 100
  let side := if ω.unif (c.u + 2 * i) < prob_buy then Side.buy else Side.sell
  let slip := 999 / 1000 + ω.unif (c.u + 2 * i + 1) * (2 / 1000)
  let raw_trade := (match side with | .buy => ba.2 | .sell => ba.1) * slip
  { timestamp := row.timestamp + i * (60 / (k : ℚ))
    bid := round4 ba.1
    ask := round4 ba.2
    trade_price := round4 raw_trade
    volume := vols.getD i 0
    side := side }

/-- The tick list one candle contributes to `all_ticks`. -/
def candle_tick_list (cfg : GeneratorConfig) (ω : RandomStream) (c : StreamPos) (row : Candle)
    (k : ℕ) (mids : List ℚ) (vols : List ℤ) : List Tick :=
  (List.range k).map (synth_tick cfg ω c row k mids vols)

/-- One iteration of the candle loop (lines 79–106): midpath, volume
allocation, then `dt = 60 / num_ticks` (ZeroDivisionError when the
count is zero) and the per-tick synthesis.  The spread draw's
`ValueError` for a negative `spread_vol` is hoisted out of the tick
loop: with at least one tick it fires at tick 0 either way. -/
def generate_candle_ticks (cfg : GeneratorConfig) (ω : RandomStream) (row : Candle)
    (num_ticks : ℤ) (c : StreamPos) : Except GenError (List Tick × StreamPos) :=
  match generate_midpath cfg ω row num_ticks c with
  | .error e => .error e
  | .ok (mids, c1) =>
    match allocate_volumes cfg ω row.Volume num_ticks c1 with
    | .error e => .error e
    | .ok (vols, c2) =>
      if num_ticks = 0 then .error .zeroDivisionError
      else if cfg.spread_vol < 0 then .error .valueErrorScale
      else .ok (candle_tick_list cfg ω c2 row num_ticks.toNat mids vols,
                ⟨c2.n + num_ticks.toNat, c2.u + 2 * num_ticks.toNat⟩)

/-- Number of ticks for minute `minute_idx` (lines 73–77):
`max(1, int(tick_distribution[minute_idx]))` when a distribution was
computed from `b3_stats`, else the configured `ticks_per_min`. -/
def candle_num_ticks (cfg : GeneratorConfig) (dist : Option (List ℚ)) (minute_idx : ℕ) : ℤ :=
  match dist with
  | none => cfg.ticks_per_min
  | some d => max 1 (trunc (d.getD minute_idx 0))

/-- The candle loop of `generate_ticks` (lines 69–106), accumulating
`all_ticks` and threading the global stream position. -/
def generate_loop (cfg : GeneratorConfig) (ω : RandomStream) (dist : Option (List ℚ)) :
    List Candle → ℕ → StreamPos → Except GenError (List Tick × StreamPos)
  | [], _, c => .ok ([], c)
  | row :: rest, minute_idx, c =>
    match generate_candle_ticks cfg ω row (candle_num_ticks cfg dist minute_idx) c with
    | .error e => .error e
    | .ok (ts, c1) =>
      match generate_loop cfg ω dist rest (minute_idx + 1) c1 with
      | .error e => .error e
      | .ok (ts1, c2) => .ok (ts ++ ts1, c2)

/-- Order used by the final `ticks_df.sort_values("timestamp")`. -/
def tickLE (a b : Tick) : Prop := a.timestamp ≤ b.timestamp

instance : DecidableRel tickLE :=
  fun a b => inferInstanceAs (Decidable (a.timestamp ≤ b.timestamp))

/-- `SyntheticTickGenerator.generate_ticks` (lines 43–112).
`dist` is the `tick_distribution` of lines 60–67: `none` when
`b3_stats` is absent or lacks `totneg`, otherwise the array produced by
`_calculate_intraday_distribution` (whose transcendental U-shape curve
is abstracted here by quantifying over the distribution's values).
When `all_ticks` is empty the assembled DataFrame has no columns and
`sort_values("timestamp")` raises `KeyError`. -/
def generate_ticks (cfg : GeneratorConfig) (ω : RandomStream) (raw : List RawCandle)
    (dist : Option (List ℚ)) (c : StreamPos) : Except GenError (List Tick × StreamPos) :=
  match generate_loop cfg ω dist (dropna raw) 0 c with
  | .error e => .error e
  | .ok (ts, c1) =>
    if ts.isEmpty then .error .keyErrorTimestamp
    else .ok (List.insertionSort tickLE ts, c1)

/-- `SyntheticTickGenerator.__init__` (lines 14–41): stores the
configuration unchanged, performs no validation, and seeds the global
stream (resetting its read position to zero). -/
def SyntheticTickGenerator.init (cfg : GeneratorConfig) :
    Except GenError (GeneratorConfig × StreamPos) :=
  .ok (cfg, ⟨0, 0⟩)

/-! ### Concrete fixtures used by counterexamples and witnesses -/

/-- The constructor's default configuration (lines 14–21). -/
def baseCfg : GeneratorConfig :=
  { ticks_per_min := 120, spread_mean := 15 / 10000, spread_vol := 3 / 10000,
    vol_noise := 4 / 10, trend_weight := 6 / 10, seed := 42 }

/-- A degenerate configuration: `ticks_per_min = 0`. -/
def degenCfg : GeneratorConfig := { baseCfg with ticks_per_min := 0 }

/-- A stream realization whose draws are all zero. -/
def zeroStream : RandomStream := { norm := fun _ => 0, unif := fun _ => 0 }

/-- A stream realization whose standard-normal draws are all `-1`. -/
def negOneStream : RandomStream := { norm := fun _ => -1, unif := fun _ => 0 }

/-- A stream realization whose standard-normal draws are all `-10` —
far enough left to make the default spread fraction negative. -/
def negTenStream : RandomStream := { norm := fun _ => -10, unif := fun _ => 0 }

/-- A minimal valid configuration: one tick per minute, no spread or
volume noise. -/
def simpleCfg : GeneratorConfig :=
  { ticks_per_min := 1, spread_mean := 0, spread_vol := 0, vol_noise := 0,
    trend_weight := 6 / 10, seed := 42 }

/-- A flat input candle at time zero with complete OHLCV fields. -/
def rawCandleA : RawCandle :=
  { timestamp := 0, Open := some 10, High := some 10, Low := some 10,
    Close := some 10, Volume := some 100 }

/-- The spec's §8 example candle: open 10.00, high 10.20, low 9.95,
close 10.15, volume 12000. -/
def candleB : Candle :=
  { timestamp := 0, Open := 10, High := 102 / 10, Low := 995 / 100,
    Close := 1015 / 100, Volume := 12000 }

/-- A flat input candle at price 20 with volume 50. -/
def rawCandleC : RawCandle :=
  { timestamp := 0, Open := some 20, High := some 20, Low := some 20,
    Close := some 20, Volume := some 50 }

/-- A flat input candle at price 30 with volume 9. -/
def rawCandleD : RawCandle :=
  { timestamp := 0, Open := some 30, High := some 30, Low := some 30,
    Close := some 30, Volume := some 9 }

/-- The flat candle of `rawCandleA`, one minute later. -/
def rawCandleE : RawCandle := { rawCandleA with timestamp := 60 }

/-- A stream realization whose `n`-th standard-normal draw is `n`. -/
def indexStream : RandomStream := { norm := fun n => (n : ℚ), unif := fun _ => 0 }

/-- A configuration whose spread depends visibly on the draw index. -/
def repeatCfg : GeneratorConfig :=
  { ticks_per_min := 1, spread_mean := 0, spread_vol := 1 / 1000, vol_noise := 0,
    trend_weight := 6 / 10, seed := 42 }

/-- A realization agreeing with `indexStream` only on the first three
normal and first two uniform draws. -/
def alteredStream : RandomStream :=
  { norm := fun n => if n < 3 then (n : ℚ) else 99,
    unif := fun n => if n < 2 then 0 else 1 / 2 }

/-! ### Helper lemmas -/

theorem clip_bounds (x lo hi : ℚ) (h : lo ≤ hi) : lo ≤ clip x lo hi ∧ clip x lo hi ≤ hi :=
  ⟨le_min (le_max_right x lo) h, min_le_right _ _⟩

theorem trunc_of_nonneg {x : ℚ} (h : 0 ≤ x) : trunc x = ⌊x⌋ := if_pos h

theorem trunc_nonneg {x : ℚ} (h : 0 ≤ x) : 0 ≤ trunc x := by
  rw [trunc_of_nonneg h]; exact Int.floor_nonneg.mpr h

theorem replicate_two (z : ℤ) : List.replicate 2 z = [z, z] := rfl

theorem int_toNat_two : (2 : ℤ).toNat = 2 := rfl

/-- Truncating a list of non-negative rationals loses less than one
unit per element. -/
theorem sum_trunc_bounds (xs : List ℚ) (hx : ∀ x ∈ xs, 0 ≤ x) :
    xs.sum - xs.length ≤ (((xs.map trunc).sum : ℤ) : ℚ) ∧
    (((xs.map trunc).sum : ℤ) : ℚ) ≤ xs.sum := by
  induction xs with
  | nil => simp
  | cons a l ih =>
    have ha : 0 ≤ a := hx a (by simp)
    obtain ⟨ih1, ih2⟩ := ih (fun x hxl => hx x (by simp [hxl]))
    have hta : trunc a = ⌊a⌋ := trunc_of_nonneg ha
    have h1 : a - 1 < (⌊a⌋ : ℚ) := Int.sub_one_lt_floor a
    have h2 : (⌊a⌋ : ℚ) ≤ a := Int.floor_le a
    constructor
    · simp only [List.map_cons, List.sum_cons, List.length_cons, hta]
      push_cast at ih1 ih2 ⊢
      linarith
    · simp only [List.map_cons, List.sum_cons, hta]
      push_cast at ih1 ih2 ⊢
      linarith

/-! ### C3 — empty candle sequence -/

/-- C3: on an empty candle sequence (no rows, or every row dropped for
missing OHLCV fields), `generate_ticks` does not return an empty tick
sequence: `all_ticks` stays empty, so `pd.DataFrame(all_ticks)` has no
columns and `sort_values("timestamp")` raises `KeyError` — the claim's
"returns an empty tick sequence and does not raise" fails on the code. -/
theorem claim3_empty_input_raises_keyerror (cfg : GeneratorConfig) (ω : RandomStream)
    (raw : List RawCandle) (dist : Option (List ℚ)) (c : StreamPos)
    (h : dropna raw = []) :
    generate_ticks cfg ω raw dist c = .error .keyErrorTimestamp := by
  simp [generate_ticks, h, generate_loop]

theorem claim3_witness :
    dropna [] = [] ∧
    generate_ticks baseCfg zeroStream [] none ⟨0, 0⟩ = .error .keyErrorTimestamp :=
  ⟨rfl, claim3_empty_input_raises_keyerror baseCfg zeroStream [] none ⟨0, 0⟩ rfl⟩

/-! ### C5 — no construction-time validation -/

/-- C5 counterexample: constructing the generator with the degenerate
configuration `ticks_per_min = 0` is not rejected — `__init__` stores
it and succeeds, so the claimed construction-time configuration error
does not happen. -/
theorem claim5_cex_degenerate_config_accepted :
    SyntheticTickGenerator.init degenCfg = .ok (degenCfg, ⟨0, 0⟩) := rfl

/-- C5 amended: the constructor performs no validation and accepts any
configuration; a degenerate `ticks_per_min = 0` propagates into
`generate_ticks`, which hits the division `60 / num_ticks` and raises
`ZeroDivisionError` on any retained candle. -/
theorem claim5_no_construction_validation :
    (∀ cfg : GeneratorConfig, SyntheticTickGenerator.init cfg = .ok (cfg, ⟨0, 0⟩)) ∧
    generate_ticks degenCfg zeroStream [rawCandleA] none ⟨0, 0⟩ = .error .zeroDivisionError :=
  ⟨fun _ => rfl, by
    norm_num [generate_ticks, generate_loop, generate_candle_ticks, generate_midpath,
      allocate_volumes, midpath_values, vol_weights, normalsList, candle_num_ticks,
      dropna, degenCfg, baseCfg, zeroStream, rawCandleA]⟩

/-! ### C6 — mid-price path stays within [Low, High] -/

/-- C6: for every candle with `Low ≤ High`, every tick count `K ≥ 1`
and every realization of the random stream, `_generate_midpath`
returns `K` mid prices, all within `[Low, High]` — the final clip
guarantees this whatever the noise draws are. -/
theorem claim6_midpath_in_range (cfg : GeneratorConfig) (ω : RandomStream) (row : Candle)
    (num_ticks : ℤ) (c : StreamPos) (hlh : row.Low ≤ row.High) (hK : 1 ≤ num_ticks) :
    ∃ mids c1, generate_midpath cfg ω row num_ticks c = .ok (mids, c1) ∧
      mids.length = num_ticks.toNat ∧ ∀ m ∈ mids, row.Low ≤ m ∧ m ≤ row.High := by
  have hscale : ¬ ((row.High - row.Low) / 200 < 0) :=
    not_lt.mpr (div_nonneg (sub_nonneg.mpr hlh) (by norm_num))
  have hneg : ¬ (num_ticks < 0) := by omega
  refine ⟨midpath_values cfg ω row num_ticks.toNat c, ⟨c.n + num_ticks.toNat, c.u⟩, ?_, ?_, ?_⟩
  · unfold generate_midpath
    rw [if_neg hneg, if_neg hscale]
  · simp [midpath_values]
  · intro m hm
    simp only [midpath_values, List.mem_map, List.mem_range] at hm
    obtain ⟨i, _, rfl⟩ := hm
    exact clip_bounds _ _ _ hlh

theorem claim6_witness :
    candleB.Low ≤ candleB.High ∧ (1 : ℤ) ≤ 2 ∧
    ∃ mids c1, generate_midpath baseCfg zeroStream candleB 2 ⟨0, 0⟩ = .ok (mids, c1) ∧
      mids.length = (2 : ℤ).toNat ∧ ∀ m ∈ mids, candleB.Low ≤ m ∧ m ≤ candleB.High :=
  ⟨by norm_num [candleB], by norm_num,
   claim6_midpath_in_range baseCfg zeroStream candleB 2 ⟨0, 0⟩ (by norm_num [candleB])
     (by norm_num)⟩

/-! ### C9 — volume allocation sums to V up to one unit per tick -/

/-- C9 counterexample: with total volume 5, tick count 1 and the
realization whose single weight draw is `|1 + 1·(−1)| = 0`,
`_allocate_volumes` hits a zero weight sum — the normalization is an
IEEE 0/0 — and produces no integer allocation at all, so the claim's
"for every realization" fails. -/
theorem claim9_cex_zero_weight_sum :
    allocate_volumes { baseCfg with vol_noise := 1 } negOneStream 5 1 ⟨0, 0⟩ =
      .error .nanVolumes := by
  norm_num [allocate_volumes, vol_weights, normalsList, negOneStream, baseCfg, List.range_succ]

/-- C9 amended: for every total volume `V ≥ 0`, tick count `K ≥ 1` and
realization on which the allocation succeeds (the drawn weights do not
all vanish), `_allocate_volumes` returns `K` non-negative integers
whose sum lies within one unit per tick of `V`:
`V − K ≤ sum ≤ V`. -/
theorem claim9_volume_allocation (cfg : GeneratorConfig) (ω : RandomStream) (c : StreamPos)
    (V : ℚ) (K : ℤ) (vols : List ℤ) (c1 : StreamPos) (hV : 0 ≤ V) (hK : 1 ≤ K)
    (h : allocate_volumes cfg ω V K c = .ok (vols, c1)) :
    vols.length = K.toNat ∧ (∀ v ∈ vols, 0 ≤ v) ∧
    V - K.toNat ≤ ((vols.sum : ℤ) : ℚ) ∧ ((vols.sum : ℤ) : ℚ) ≤ V := by
  unfold allocate_volumes at h
  rw [if_neg (show ¬ K < 0 by omega)] at h
  by_cases hσ : cfg.vol_noise < 0
  · rw [if_pos hσ] at h; exact absurd h (by simp)
  rw [if_neg hσ, if_neg (show ¬ K.toNat = 0 by omega)] at h
  by_cases hs : (vol_weights cfg ω c K.toNat).sum = 0
  · rw [if_pos hs] at h; exact absurd h (by simp)
  rw [if_neg hs] at h
  simp only [Except.ok.injEq, Prod.mk.injEq] at h
  obtain ⟨hv, -⟩ := h
  subst hv
  set ws := vol_weights cfg ω c K.toNat with hws
  have hlen : ws.length = K.toNat := by
    simp [hws, vol_weights, normalsList]
  have hwnn : ∀ w ∈ ws, 0 ≤ w := by
    intro w hw
    simp only [hws, vol_weights, List.mem_map] at hw
    obtain ⟨g, -, rfl⟩ := hw
    exact abs_nonneg g
  have hspos : 0 < ws.sum := lt_of_le_of_ne (List.sum_nonneg hwnn) (Ne.symm hs)
  have hmapmap :
      ws.map (fun w => trunc (w / ws.sum * V)) = (ws.map (fun w => w / ws.sum * V)).map trunc := by
    rw [List.map_map]
    rfl
  refine ⟨?_, ?_, ?_, ?_⟩
  · simpa using hlen
  · intro v hv
    simp only [List.mem_map] at hv
    obtain ⟨w, hw, rfl⟩ := hv
    exact trunc_nonneg (mul_nonneg (div_nonneg (hwnn w hw) hspos.le) hV)
  all_goals {
    have hxnn : ∀ x ∈ ws.map (fun w => w / ws.sum * V), 0 ≤ x := by
      intro x hx
      simp only [List.mem_map] at hx
      obtain ⟨w, hw, rfl⟩ := hx
      exact mul_nonneg (div_nonneg (hwnn w hw) hspos.le) hV
    have hxsum : (ws.map (fun w => w / ws.sum * V)).sum = V := by
      have hfun : (fun w => w / ws.sum * V) = fun w => w * (V / ws.sum) := by
        funext w
        rw [div_mul_eq_mul_div, mul_div_assoc]
      rw [hfun, List.sum_map_mul_right, List.map_id', mul_comm]
      exact div_mul_cancel₀ V hs
    have hxlen : (ws.map (fun w => w / ws.sum * V)).length = K.toNat := by
      simpa using hlen
    have hb := sum_trunc_bounds (ws.map (fun w => w / ws.sum * V)) hxnn
    rw [hxsum, hxlen] at hb
    rw [hmapmap]
    first
      | exact hb.1
      | exact hb.2
  }

theorem claim9_witness :
    (0 : ℚ) ≤ 5 ∧ (1 : ℤ) ≤ 2 ∧
    (([2, 2] : List ℤ).length = (2 : ℤ).toNat ∧ (∀ v ∈ ([2, 2] : List ℤ), 0 ≤ v) ∧
      (5 : ℚ) - (((2 : ℤ).toNat : ℕ) : ℚ) ≤ ((([2, 2] : List ℤ).sum : ℤ) : ℚ) ∧
      ((([2, 2] : List ℤ).sum : ℤ) : ℚ) ≤ 5) :=
  ⟨by norm_num, by norm_num,
   claim9_volume_allocation { baseCfg with vol_noise := 0 } zeroStream ⟨0, 0⟩ 5 2 [2, 2] ⟨2, 0⟩
     (by norm_num) (by norm_num)
     (by norm_num [allocate_volumes, vol_weights, normalsList, zeroStream, baseCfg,
        List.range_succ, trunc, int_toNat_two, List.replicate])⟩

/-! ### C10 — the normalization divisor -/

/-- C10 counterexample: the divisor `weights.sum()` is not nonzero for
every realization — with tick count 2 and both weight draws equal to
`|1 + 1·(−1)| = 0` the divisor is zero and the division is an IEEE
0/0, so `_allocate_volumes` does not return finite values. -/
theorem claim10_cex_zero_divisor :
    allocate_volumes { baseCfg with vol_noise := 1 } negOneStream 7 2 ⟨0, 0⟩ =
      .error .nanVolumes := by
  norm_num [allocate_volumes, vol_weights, normalsList, negOneStream, baseCfg, List.range_succ]

/-- C10 amended: the divisor `weights.sum()` is positive — and
`_allocate_volumes` returns `K` values — for every realization in
which at least one drawn weight is nonzero (the almost-sure case);
there is no guard for the remaining all-zero realizations. -/
theorem claim10_divisor_nonzero (cfg : GeneratorConfig) (ω : RandomStream) (c : StreamPos)
    (V : ℚ) (K : ℤ) (i : ℕ) (hK : 1 ≤ K) (hσ : 0 ≤ cfg.vol_noise) (hi : i < K.toNat)
    (hnz : 1 + cfg.vol_noise * ω.norm (c.n + i) ≠ 0) :
    0 < (vol_weights cfg ω c K.toNat).sum ∧
    ∃ vols c1, allocate_volumes cfg ω V K c = .ok (vols, c1) ∧ vols.length = K.toNat := by
  have hwnn : ∀ w ∈ vol_weights cfg ω c K.toNat, 0 ≤ w := by
    intro w hw
    simp only [vol_weights, List.mem_map] at hw
    obtain ⟨g, -, rfl⟩ := hw
    exact abs_nonneg g
  have hmem : |1 + cfg.vol_noise * ω.norm (c.n + i)| ∈ vol_weights cfg ω c K.toNat := by
    simp only [vol_weights, normalsList, List.map_map, List.mem_map, List.mem_range,
      Function.comp]
    exact ⟨i, hi, rfl⟩
  have hspos : 0 < (vol_weights cfg ω c K.toNat).sum :=
    lt_of_lt_of_le (abs_pos.mpr hnz) (List.single_le_sum hwnn _ hmem)
  refine ⟨hspos,
    (vol_weights cfg ω c K.toNat).map
      (fun w => trunc (w / (vol_weights cfg ω c K.toNat).sum * V)),
    ⟨c.n + K.toNat, c.u⟩, ?_, ?_⟩
  · unfold allocate_volumes
    rw [if_neg (show ¬ K < 0 by omega), if_neg (not_lt.mpr hσ),
      if_neg (show ¬ K.toNat = 0 by omega), if_neg (ne_of_gt hspos)]
  · simp [vol_weights, normalsList]

theorem claim10_witness :
    (1 : ℤ) ≤ 1 ∧ (0 : ℚ) ≤ ({ baseCfg with vol_noise := 0 } : GeneratorConfig).vol_noise ∧
    0 < 1 ∧ (1 + ({ baseCfg with vol_noise := 0 } : GeneratorConfig).vol_noise *
        zeroStream.norm 0 ≠ 0) ∧
    (0 < (vol_weights { baseCfg with vol_noise := 0 } zeroStream ⟨0, 0⟩ (1 : ℤ).toNat).sum ∧
      ∃ vols c1,
        allocate_volumes { baseCfg with vol_noise := 0 } zeroStream 3 1 ⟨0, 0⟩ =
          .ok (vols, c1) ∧ vols.length = (1 : ℤ).toNat) :=
  ⟨by norm_num, by norm_num [baseCfg], by norm_num, by norm_num [baseCfg, zeroStream],
   claim10_divisor_nonzero { baseCfg with vol_noise := 0 } zeroStream ⟨0, 0⟩ 3 1 0
     (by norm_num) (by norm_num [baseCfg]) (by norm_num) (by norm_num [baseCfg, zeroStream])⟩

/-! ### Elimination lemmas for successful runs -/

theorem generate_midpath_ok_elim {cfg : GeneratorConfig} {ω : RandomStream} {row : Candle}
    {K : ℤ} {c : StreamPos} {mids : List ℚ} {c1 : StreamPos}
    (h : generate_midpath cfg ω row K c = .ok (mids, c1)) :
    0 ≤ K ∧ row.Low ≤ row.High ∧ mids = midpath_values cfg ω row K.toNat c ∧
      c1 = ⟨c.n + K.toNat, c.u⟩ := by
  unfold generate_midpath at h
  split at h
  · simp at h
  split at h
  · simp at h
  rename_i hKneg hscale
  simp only [Except.ok.injEq, Prod.mk.injEq] at h
  refine ⟨by omega, ?_, h.1.symm, h.2.symm⟩
  by_contra hlh
  exact hscale (div_neg_of_neg_of_pos (by linarith [not_le.mp hlh]) (by norm_num))

theorem allocate_volumes_ok_elim {cfg : GeneratorConfig} {ω : RandomStream} {V : ℚ}
    {K : ℤ} {c : StreamPos} {vols : List ℤ} {c1 : StreamPos}
    (h : allocate_volumes cfg ω V K c = .ok (vols, c1)) :
    0 ≤ K ∧ 0 ≤ cfg.vol_noise ∧ vols.length = K.toNat ∧ c1 = ⟨c.n + K.toNat, c.u⟩ := by
  unfold allocate_volumes at h
  split at h
  · simp at h
  split at h
  · simp at h
  rename_i hKneg hσ
  split at h
  · rename_i hk0
    simp only [Except.ok.injEq, Prod.mk.injEq] at h
    exact ⟨by omega, not_lt.mp hσ, by rw [← h.1, hk0]; rfl, h.2.symm⟩
  split at h
  · simp at h
  simp only [Except.ok.injEq, Prod.mk.injEq] at h
  refine ⟨by omega, not_lt.mp hσ, ?_, h.2.symm⟩
  rw [← h.1]
  simp [vol_weights, normalsList]

theorem candle_tick_list_length (cfg : GeneratorConfig) (ω : RandomStream) (c : StreamPos)
    (row : Candle) (k : ℕ) (mids : List ℚ) (vols : List ℤ) :
    (candle_tick_list cfg ω c row k mids vols).length = k := by
  simp [candle_tick_list]

theorem generate_candle_ticks_ok_elim {cfg : GeneratorConfig} {ω : RandomStream} {row : Candle}
    {K : ℤ} {c : StreamPos} {ts : List Tick} {c1 : StreamPos}
    (h : generate_candle_ticks cfg ω row K c = .ok (ts, c1)) :
    ∃ mids vols c2 c3,
      generate_midpath cfg ω row K c = .ok (mids, c2) ∧
      allocate_volumes cfg ω row.Volume K c2 = .ok (vols, c3) ∧
      1 ≤ K ∧ 0 ≤ cfg.spread_vol ∧
      ts = candle_tick_list cfg ω c3 row K.toNat mids vols ∧
      c1 = ⟨c3.n + K.toNat, c3.u + 2 * K.toNat⟩ := by
  unfold generate_candle_ticks at h
  cases hm : generate_midpath cfg ω row K c with
  | error e => rw [hm] at h; simp at h
  | ok p =>
    obtain ⟨mids, c2⟩ := p
    rw [hm] at h
    dsimp only at h
    cases ha : allocate_volumes cfg ω row.Volume K c2 with
    | error e => rw [ha] at h; simp at h
    | ok q =>
      obtain ⟨vols, c3⟩ := q
      rw [ha] at h
      dsimp only at h
      split at h
      · simp at h
      split at h
      · simp at h
      rename_i hK0 hσ
      simp only [Except.ok.injEq, Prod.mk.injEq] at h
      have hK : 0 ≤ K := (generate_midpath_ok_elim hm).1
      exact ⟨mids, vols, c2, c3, rfl, ha, by omega, not_lt.mp hσ, h.1.symm, h.2.symm⟩

/-- In the no-statistics branch every candle contributes exactly
`ticks_per_min` ticks to `all_ticks`. -/
theorem generate_loop_none_length (cfg : GeneratorConfig) (ω : RandomStream) :
    ∀ (candles : List Candle) (j : ℕ) (c : StreamPos) (ts : List Tick) (c1 : StreamPos),
      generate_loop cfg ω none candles j c = .ok (ts, c1) →
      ts.length = candles.length * cfg.ticks_per_min.toNat := by
  intro candles
  induction candles with
  | nil =>
    intro j c ts c1 h
    simp only [generate_loop, Except.ok.injEq, Prod.mk.injEq] at h
    rw [← h.1]
    simp
  | cons row rest ih =>
    intro j c ts c1 h
    unfold generate_loop at h
    cases hc : generate_candle_ticks cfg ω row (candle_num_ticks cfg none j) c with
    | error e => rw [hc] at h; simp at h
    | ok p =>
      obtain ⟨ts0, c2⟩ := p
      rw [hc] at h
      dsimp only at h
      cases hr : generate_loop cfg ω none rest (j + 1) c2 with
      | error e => rw [hr] at h; simp at h
      | ok q =>
        obtain ⟨ts1, c3⟩ := q
        rw [hr] at h
        dsimp only at h
        simp only [Except.ok.injEq, Prod.mk.injEq] at h
        obtain ⟨mids, vols, cm, ca, -, -, -, -, hts0, -⟩ := generate_candle_ticks_ok_elim hc
        rw [← h.1, List.length_append, hts0, candle_tick_list_length,
          ih (j + 1) c2 ts1 c3 hr]
        have : candle_num_ticks cfg none j = cfg.ticks_per_min := rfl
        rw [this]
        simp only [List.length_cons]
        ring

/-! ### C8 — constant per-candle tick count without session statistics -/

/-- C8: when no session statistic is supplied (the `b3_stats`/`totneg`
branch is not taken, so `tick_distribution` is `None`), every retained
candle contributes exactly `ticks_per_min` ticks, and a successful run
returns `ticks_per_min × (number of retained candles)` ticks in
total. -/
theorem claim8_tick_count_without_stats (cfg : GeneratorConfig) (ω : RandomStream)
    (raw : List RawCandle) (c : StreamPos) (ts : List Tick) (c1 : StreamPos)
    (h : generate_ticks cfg ω raw none c = .ok (ts, c1)) :
    ts.length = (dropna raw).length * cfg.ticks_per_min.toNat := by
  unfold generate_ticks at h
  cases hl : generate_loop cfg ω none (dropna raw) 0 c with
  | error e => rw [hl] at h; simp at h
  | ok p =>
    obtain ⟨ts0, c2⟩ := p
    rw [hl] at h
    dsimp only at h
    split at h
    · simp at h
    simp only [Except.ok.injEq, Prod.mk.injEq] at h
    rw [← h.1, List.length_insertionSort]
    exact generate_loop_none_length cfg ω (dropna raw) 0 c ts0 c2 hl

theorem claim8_witness :
    generate_ticks simpleCfg zeroStream [rawCandleA] none ⟨0, 0⟩ =
      .ok ([{ timestamp := 0, bid := 10, ask := 10, trade_price := 999 / 100,
              volume := 100, side := Side.buy }], ⟨3, 2⟩) ∧
    ([{ timestamp := 0, bid := 10, ask := 10, trade_price := 999 / 100,
        volume := 100, side := Side.buy }] : List Tick).length =
      (dropna [rawCandleA]).length * simpleCfg.ticks_per_min.toNat := by
  have hrun : generate_ticks simpleCfg zeroStream [rawCandleA] none ⟨0, 0⟩ =
      .ok ([{ timestamp := 0, bid := 10, ask := 10, trade_price := 999 / 100,
              volume := 100, side := Side.buy }], ⟨3, 2⟩) := by
    norm_num [generate_ticks, generate_loop, generate_candle_ticks, generate_midpath,
      allocate_volumes, midpath_values, vol_weights, normalsList, candle_num_ticks,
      candle_tick_list, synth_tick, generate_spread, dropna, linspaceAt, clip, trunc,
      round4, round_eq, simpleCfg, zeroStream, rawCandleA, List.range_succ,
      List.insertionSort, List.orderedInsert, min_self, max_self]
  exact ⟨hrun, claim8_tick_count_without_stats simpleCfg zeroStream [rawCandleA]
    ⟨0, 0⟩ _ _ hrun⟩

/-! ### Helper lemmas on rounding, list access and tick shape -/

theorem round4_mono {x y : ℚ} (h : x ≤ y) : round4 x ≤ round4 y := by
  unfold round4
  have hr : round (x * 10000) ≤ round (y * 10000) := by
    rw [round_eq, round_eq]
    exact Int.floor_mono (by linarith)
  have hc : ((round (x * 10000) : ℤ) : ℚ) ≤ ((round (y * 10000) : ℤ) : ℚ) := by
    exact_mod_cast hr
  linarith

theorem round4_close (x : ℚ) : |round4 x - x| ≤ 1 / 20000 := by
  unfold round4
  have h := abs_sub_round (x * 10000)
  rw [abs_sub_comm] at h
  have heq : ((round (x * 10000) : ℤ) : ℚ) / 10000 - x
      = (((round (x * 10000) : ℤ) : ℚ) - x * 10000) / 10000 := by ring
  rw [heq, abs_div, show |(10000 : ℚ)| = 10000 by norm_num]
  calc |((round (x * 10000) : ℤ) : ℚ) - x * 10000| / 10000
      ≤ (1 / 2) / 10000 := (div_le_div_iff_of_pos_right (by norm_num)).mpr h
    _ = 1 / 20000 := by norm_num

theorem getD_mem {α : Type} {l : List α} {i : ℕ} {d : α} (h : i < l.length) :
    l.getD i d ∈ l := by
  simp only [List.getD_eq_getElem?_getD, List.getElem?_eq_getElem h, Option.getD_some]
  exact List.getElem_mem h

theorem midpath_values_length (cfg : GeneratorConfig) (ω : RandomStream) (row : Candle)
    (k : ℕ) (c : StreamPos) : (midpath_values cfg ω row k c).length = k := by
  simp [midpath_values]

theorem midpath_values_bounds {cfg : GeneratorConfig} {ω : RandomStream} {row : Candle}
    {k : ℕ} {c : StreamPos} (hlh : row.Low ≤ row.High) :
    ∀ m ∈ midpath_values cfg ω row k c, row.Low ≤ m ∧ m ≤ row.High := by
  intro m hm
  simp only [midpath_values, List.mem_map, List.mem_range] at hm
  obtain ⟨i, -, rfl⟩ := hm
  exact clip_bounds _ _ _ hlh

theorem candle_tick_list_time_bounds {cfg : GeneratorConfig} {ω : RandomStream}
    {c : StreamPos} {row : Candle} {k : ℕ} {mids : List ℚ} {vols : List ℤ}
    (hk : 1 ≤ k) :
    ∀ t ∈ candle_tick_list cfg ω c row k mids vols,
      row.timestamp ≤ t.timestamp ∧ t.timestamp < row.timestamp + 60 := by
  intro t ht
  simp only [candle_tick_list, List.mem_map, List.mem_range] at ht
  obtain ⟨i, hik, rfl⟩ := ht
  have hkpos : (0 : ℚ) < (k : ℚ) := by exact_mod_cast hk
  have hd : (0 : ℚ) < 60 / (k : ℚ) := by positivity
  have hts : (synth_tick cfg ω c row k mids vols i).timestamp
      = row.timestamp + i * (60 / (k : ℚ)) := rfl
  rw [hts]
  constructor
  · have : (0 : ℚ) ≤ i * (60 / (k : ℚ)) := by positivity
    linarith
  · have hik' : ((i : ℚ)) < (k : ℚ) := by exact_mod_cast hik
    have : (i : ℚ) * (60 / (k : ℚ)) < (k : ℚ) * (60 / (k : ℚ)) := by
      exact mul_lt_mul_of_pos_right hik' hd
    have hcancel : (k : ℚ) * (60 / (k : ℚ)) = 60 := by
      field_simp
    linarith

/-- Every tick in the accumulated `all_ticks` list comes from some
candle of the input, as the output of that candle's per-tick loop. -/
theorem generate_loop_mem_elim (cfg : GeneratorConfig) (ω : RandomStream)
    (dist : Option (List ℚ)) :
    ∀ (candles : List Candle) (j : ℕ) (c : StreamPos) (ts : List Tick) (c1 : StreamPos),
      generate_loop cfg ω dist candles j c = .ok (ts, c1) →
      ∀ t ∈ ts, ∃ row ∈ candles, ∃ K c0 ts0 c2,
        generate_candle_ticks cfg ω row K c0 = .ok (ts0, c2) ∧ t ∈ ts0 := by
  intro candles
  induction candles with
  | nil =>
    intro j c ts c1 h t ht
    simp only [generate_loop, Except.ok.injEq, Prod.mk.injEq] at h
    rw [← h.1] at ht
    simp at ht
  | cons row rest ih =>
    intro j c ts c1 h t ht
    unfold generate_loop at h
    cases hc : generate_candle_ticks cfg ω row (candle_num_ticks cfg dist j) c with
    | error e => rw [hc] at h; simp at h
    | ok p =>
      obtain ⟨ts0, c2⟩ := p
      rw [hc] at h
      dsimp only at h
      cases hr : generate_loop cfg ω dist rest (j + 1) c2 with
      | error e => rw [hr] at h; simp at h
      | ok q =>
        obtain ⟨ts1, c3⟩ := q
        rw [hr] at h
        dsimp only at h
        simp only [Except.ok.injEq, Prod.mk.injEq] at h
        rw [← h.1] at ht
        rcases List.mem_append.mp ht with h0 | h1
        · exact ⟨row, by simp, candle_num_ticks cfg dist j, c, ts0, c2, hc, h0⟩
        · obtain ⟨row', hrow', rest_data⟩ := ih (j + 1) c2 ts1 c3 hr t h1
          exact ⟨row', by simp [hrow'], rest_data⟩

/-- Every tick of a successful `generate_ticks` run is produced by the
per-candle synthesis of one specific retained candle: that candle's
invocation returns a tick list containing the tick, and the tick is the
`i`-th tick synthesized from that candle's (clipped) mid path. -/
theorem generate_ticks_tick_shape {cfg : GeneratorConfig} {ω : RandomStream}
    {raw : List RawCandle} {dist : Option (List ℚ)} {c : StreamPos}
    {ts : List Tick} {c1 : StreamPos}
    (h : generate_ticks cfg ω raw dist c = .ok (ts, c1)) :
    ∀ t ∈ ts, ∃ row ∈ dropna raw,
      ∃ (K : ℤ) (c0 : StreamPos) (ts0 : List Tick) (c2 : StreamPos),
      generate_candle_ticks cfg ω row K c0 = .ok (ts0, c2) ∧ t ∈ ts0 ∧
      ∃ (i : ℕ) (c3 : StreamPos) (mids : List ℚ) (vols : List ℤ),
        i < K.toNat ∧ row.Low ≤ row.High ∧ mids.length = K.toNat ∧
        (∀ m ∈ mids, row.Low ≤ m ∧ m ≤ row.High) ∧
        ts0 = candle_tick_list cfg ω c3 row K.toNat mids vols ∧
        t = synth_tick cfg ω c3 row K.toNat mids vols i := by
  intro t ht
  unfold generate_ticks at h
  cases hl : generate_loop cfg ω dist (dropna raw) 0 c with
  | error e => rw [hl] at h; simp at h
  | ok p =>
    obtain ⟨tsA, cA⟩ := p
    rw [hl] at h
    dsimp only at h
    split at h
    · simp at h
    simp only [Except.ok.injEq, Prod.mk.injEq] at h
    rw [← h.1, List.mem_insertionSort] at ht
    obtain ⟨row, hrow, K, c0, tsc, cc, hcand, htc⟩ :=
      generate_loop_mem_elim cfg ω dist (dropna raw) 0 c tsA cA hl t ht
    obtain ⟨mids, vols, cm, ca, hm, ha, hK1, -, hts, -⟩ :=
      generate_candle_ticks_ok_elim hcand
    obtain ⟨-, hlh, hmids, hcm⟩ := generate_midpath_ok_elim hm
    have htc0 := htc
    rw [hts] at htc
    simp only [candle_tick_list, List.mem_map, List.mem_range] at htc
    obtain ⟨i, hik, hti⟩ := htc
    refine ⟨row, hrow, K, c0, tsc, cc, hcand, htc0, i, ca, mids, vols,
      hik, hlh, ?_, ?_, hts, hti.symm⟩
    · rw [hmids, midpath_values_length]
    · rw [hmids]
      exact midpath_values_bounds hlh

/-! ### C2 — bid ≤ ask -/

/-- C2 counterexample: a realization whose spread draw is `−10` makes
the spread fraction `0.0015 + 0.0003·(−10) = −0.0015` negative, and
the single tick of a successful run comes out with bid 10.0075 >
ask 9.9925 — the invariant `bid ≤ ask` does not hold for every
realization. -/
theorem claim2_cex_inverted_spread :
    generate_ticks { baseCfg with ticks_per_min := 1 } negTenStream [rawCandleA] none ⟨0, 0⟩ =
      .ok ([{ timestamp := 0, bid := 4003 / 400, ask := 3997 / 400,
              trade_price := 3993 / 400, volume := 100, side := Side.buy }], ⟨3, 2⟩) ∧
    (3997 / 400 : ℚ) < 4003 / 400 := by
  constructor
  · norm_num [generate_ticks, generate_loop, generate_candle_ticks, generate_midpath,
      allocate_volumes, midpath_values, vol_weights, normalsList, candle_num_ticks,
      candle_tick_list, synth_tick, generate_spread, dropna, linspaceAt, clip, trunc,
      round4, round_eq, baseCfg, negTenStream, rawCandleA, List.range_succ,
      List.insertionSort, List.orderedInsert, min_self, max_self]
  · norm_num

/-- C2 amended: `bid ≤ ask` holds for every tick of a successful run
provided the realized spread fractions are all non-negative (which the
code does not enforce — `_generate_spread` draws them from an
unclamped Gaussian) and the retained candles have non-negative lows. -/
theorem claim2_bid_le_ask (cfg : GeneratorConfig) (ω : RandomStream) (raw : List RawCandle)
    (dist : Option (List ℚ)) (c : StreamPos) (ts : List Tick) (c1 : StreamPos)
    (hf : ∀ n, 0 ≤ cfg.spread_mean + cfg.spread_vol * ω.norm n)
    (hlow : ∀ row ∈ dropna raw, 0 ≤ row.Low)
    (h : generate_ticks cfg ω raw dist c = .ok (ts, c1)) :
    ∀ t ∈ ts, t.bid ≤ t.ask := by
  intro t ht
  obtain ⟨row, hrow, K, c0, ts0, c2, hcand, htmem0, i, c3, mids, vols,
    hik, hlh, hlen, hbounds, hts0, hteq⟩ := generate_ticks_tick_shape h t ht
  have hmid : 0 ≤ mids.getD i 0 := by
    have hmem : mids.getD i 0 ∈ mids := getD_mem (by omega)
    linarith [(hbounds _ hmem).1, hlow row hrow]
  have hfrac := hf (c3.n + i)
  rw [hteq]
  show round4 (generate_spread cfg (ω.norm (c3.n + i)) (mids.getD i 0)).1 ≤
    round4 (generate_spread cfg (ω.norm (c3.n + i)) (mids.getD i 0)).2
  apply round4_mono
  unfold generate_spread
  dsimp only
  nlinarith [mul_nonneg hmid hfrac]

theorem claim2_witness :
    (∀ n, 0 ≤ simpleCfg.spread_mean + simpleCfg.spread_vol * zeroStream.norm n) ∧
    (∀ row ∈ dropna [rawCandleC], 0 ≤ row.Low) ∧
    ∀ t ∈ [({ timestamp := 0, bid := 20, ask := 20, trade_price := 1998 / 100,
              volume := 50, side := Side.buy } : Tick)], t.bid ≤ t.ask := by
  have hrun : generate_ticks simpleCfg zeroStream [rawCandleC] none ⟨0, 0⟩ =
      .ok ([{ timestamp := 0, bid := 20, ask := 20, trade_price := 1998 / 100,
              volume := 50, side := Side.buy }], ⟨3, 2⟩) := by
    norm_num [generate_ticks, generate_loop, generate_candle_ticks, generate_midpath,
      allocate_volumes, midpath_values, vol_weights, normalsList, candle_num_ticks,
      candle_tick_list, synth_tick, generate_spread, dropna, linspaceAt, clip, trunc,
      round4, round_eq, simpleCfg, zeroStream, rawCandleC, List.range_succ,
      List.insertionSort, List.orderedInsert, min_self, max_self]
  refine ⟨?_, ?_, ?_⟩
  · intro n; norm_num [simpleCfg, zeroStream]
  · intro row hrow
    simp only [dropna, rawCandleC, List.filterMap] at hrow
    simp at hrow
    rw [hrow]
    norm_num
  · exact claim2_bid_le_ask simpleCfg zeroStream [rawCandleC] none ⟨0, 0⟩ _ _
      (by intro n; norm_num [simpleCfg, zeroStream])
      (by intro row hrow
          simp only [dropna, rawCandleC, List.filterMap] at hrow
          simp at hrow
          rw [hrow]
          norm_num)
      hrun

/-! ### C4 — prices relative to the candle range -/

theorem round4_fixed (z : ℤ) : round4 ((z : ℚ) / 10000) = (z : ℚ) / 10000 := by
  unfold round4
  rw [div_mul_cancel₀ _ (by norm_num : (10000 : ℚ) ≠ 0), round_intCast]

theorem generate_spread_of_zero_frac {cfg : GeneratorConfig} {z : ℚ} (mid : ℚ)
    (hz : cfg.spread_mean + cfg.spread_vol * z = 0) :
    generate_spread cfg z mid = (mid, mid) := by
  unfold generate_spread
  rw [hz]
  norm_num

theorem synth_tick_trade_of_flat_spread {cfg : GeneratorConfig} {ω : RandomStream}
    {c : StreamPos} {row : Candle} {k : ℕ} {mids : List ℚ} {vols : List ℤ} {i : ℕ}
    (hq : generate_spread cfg (ω.norm (c.n + i)) (mids.getD i 0) =
      (mids.getD i 0, mids.getD i 0)) :
    (synth_tick cfg ω c row k mids vols i).trade_price =
      round4 (mids.getD i 0 * (999 / 1000 + ω.unif (c.u + 2 * i + 1) * (2 / 1000))) := by
  by_cases hcond : ω.unif (c.u + 2 * i) <
      (if row.Open < row.Close then (55 : ℚ) / 100 else 45 / 100)
  all_goals
    simp only [List.getD_eq_getElem?_getD] at hq
    simp [synth_tick, hq, hcond]

/-- C4 counterexample: with the default (positive-mean) spread and the
all-zero realization, a flat candle at 10 — so `[low, high] = [10, 10]`
— yields a tick whose ask 10.0075 exceeds `high` and whose trade price
9.9975 falls below `low`: the generated quotes are not clamped into
the candle range. -/
theorem claim4_cex_quotes_leave_range :
    generate_ticks { baseCfg with ticks_per_min := 1 } zeroStream [rawCandleA] none ⟨0, 0⟩ =
      .ok ([{ timestamp := 0, bid := 3997 / 400, ask := 4003 / 400,
              trade_price := 3999 / 400, volume := 100, side := Side.buy }], ⟨3, 2⟩) ∧
    rawCandleA.High = some 10 ∧ (10 : ℚ) < 4003 / 400 := by
  refine ⟨?_, rfl, by norm_num⟩
  norm_num [generate_ticks, generate_loop, generate_candle_ticks, generate_midpath,
    allocate_volumes, midpath_values, vol_weights, normalsList, candle_num_ticks,
    candle_tick_list, synth_tick, generate_spread, dropna, linspaceAt, clip, trunc,
    round4, round_eq, baseCfg, zeroStream, rawCandleA, List.range_succ,
    List.insertionSort, List.orderedInsert, min_self, max_self]

/-- C4 amended: the in-range claim survives only with the spread noise
zeroed out.  If every realized spread fraction is zero, every uniform
draw lies in [0,1], and the retained candles have non-negative
4-decimal lows and highs, then each tick is bounded by the candle that
produced it — the retained candle whose per-candle synthesis emitted
the tick (its invocation returns a list containing the tick, and the
tick's timestamp lies in that candle's minute): its bid and ask lie
within that candle's `[low, high]`, and its trade price lies within
the slippage-and-rounding band `[0.999·low − 0.00005, 1.001·high +
0.00005]`; with nonzero spread draws the quotes can leave `[low,
high]`, as the counterexample shows. -/
theorem claim4_price_band (cfg : GeneratorConfig) (ω : RandomStream) (raw : List RawCandle)
    (dist : Option (List ℚ)) (c : StreamPos) (ts : List Tick) (c1 : StreamPos)
    (hf : ∀ n, cfg.spread_mean + cfg.spread_vol * ω.norm n = 0)
    (hu : ∀ n, 0 ≤ ω.unif n ∧ ω.unif n ≤ 1)
    (hlo : ∀ row ∈ dropna raw, 0 ≤ row.Low)
    (hdec : ∀ row ∈ dropna raw,
      (∃ z : ℤ, row.Low = (z : ℚ) / 10000) ∧ (∃ z : ℤ, row.High = (z : ℚ) / 10000))
    (h : generate_ticks cfg ω raw dist c = .ok (ts, c1)) :
    ∀ t ∈ ts, ∃ row ∈ dropna raw,
      (∃ (K : ℤ) (c0 : StreamPos) (ts0 : List Tick) (c2 : StreamPos),
        generate_candle_ticks cfg ω row K c0 = .ok (ts0, c2) ∧ t ∈ ts0) ∧
      row.timestamp ≤ t.timestamp ∧ t.timestamp < row.timestamp + 60 ∧
      (row.Low ≤ t.bid ∧ t.bid ≤ row.High) ∧ (row.Low ≤ t.ask ∧ t.ask ≤ row.High) ∧
      999 / 1000 * row.Low - 1 / 20000 ≤ t.trade_price ∧
      t.trade_price ≤ 1001 / 1000 * row.High + 1 / 20000 := by
  intro t ht
  obtain ⟨row, hrow, K, c0, ts0, c2, hcand, htmem0, i, c3, mids, vols,
    hik, hlh, hlen, hbounds, hts0, hteq⟩ := generate_ticks_tick_shape h t ht
  have htlist : t ∈ candle_tick_list cfg ω c3 row K.toNat mids vols := by
    simp only [candle_tick_list, List.mem_map, List.mem_range]
    exact ⟨i, hik, hteq.symm⟩
  obtain ⟨htime_lo, htime_hi⟩ :=
    candle_tick_list_time_bounds (show 1 ≤ K.toNat by omega) t htlist
  have hmem : mids.getD i 0 ∈ mids := getD_mem (by omega)
  obtain ⟨hmlo, hmhi⟩ := hbounds _ hmem
  have hlow0 : 0 ≤ row.Low := hlo row hrow
  have hmid0 : 0 ≤ mids.getD i 0 := le_trans hlow0 hmlo
  obtain ⟨⟨zl, hzl⟩, ⟨zh, hzh⟩⟩ := hdec row hrow
  have hq := generate_spread_of_zero_frac (mids.getD i 0) (hf (c3.n + i))
  have hfixl : round4 row.Low = row.Low := by rw [hzl]; exact round4_fixed zl
  have hfixh : round4 row.High = row.High := by rw [hzh]; exact round4_fixed zh
  have hbid : t.bid = round4 (mids.getD i 0) := by
    rw [hteq]
    show round4 (generate_spread cfg (ω.norm (c3.n + i)) (mids.getD i 0)).1 = _
    rw [hq]
  have hask : t.ask = round4 (mids.getD i 0) := by
    rw [hteq]
    show round4 (generate_spread cfg (ω.norm (c3.n + i)) (mids.getD i 0)).2 = _
    rw [hq]
  have hin : row.Low ≤ round4 (mids.getD i 0) ∧ round4 (mids.getD i 0) ≤ row.High := by
    constructor
    · rw [← hfixl]; exact round4_mono hmlo
    · rw [← hfixh]; exact round4_mono hmhi
  have htrade : t.trade_price =
      round4 (mids.getD i 0 * (999 / 1000 + ω.unif (c3.u + 2 * i + 1) * (2 / 1000))) := by
    rw [hteq]
    exact synth_tick_trade_of_flat_spread hq
  obtain ⟨hu0, hu1⟩ := hu (c3.u + 2 * i + 1)
  have hraw_lo : 999 / 1000 * row.Low ≤
      mids.getD i 0 * (999 / 1000 + ω.unif (c3.u + 2 * i + 1) * (2 / 1000)) := by
    nlinarith
  have hraw_hi : mids.getD i 0 * (999 / 1000 + ω.unif (c3.u + 2 * i + 1) * (2 / 1000)) ≤
      1001 / 1000 * row.High := by
    nlinarith
  have hclose := round4_close
    (mids.getD i 0 * (999 / 1000 + ω.unif (c3.u + 2 * i + 1) * (2 / 1000)))
  obtain ⟨hc1, hc2⟩ := abs_le.mp hclose
  refine ⟨row, hrow, ⟨K, c0, ts0, c2, hcand, htmem0⟩, htime_lo, htime_hi,
    ⟨?_, ?_⟩, ⟨?_, ?_⟩, ?_, ?_⟩
  · rw [hbid]; exact hin.1
  · rw [hbid]; exact hin.2
  · rw [hask]; exact hin.1
  · rw [hask]; exact hin.2
  · rw [htrade]; linarith
  · rw [htrade]; linarith

theorem claim4_witness :
    (∀ n, simpleCfg.spread_mean + simpleCfg.spread_vol * zeroStream.norm n = 0) ∧
    (∀ n, 0 ≤ zeroStream.unif n ∧ zeroStream.unif n ≤ 1) ∧
    ∀ t ∈ [({ timestamp := 0, bid := 30, ask := 30, trade_price := 2997 / 100,
              volume := 9, side := Side.buy } : Tick)], ∃ row ∈ dropna [rawCandleD],
      (∃ (K : ℤ) (c0 : StreamPos) (ts0 : List Tick) (c2 : StreamPos),
        generate_candle_ticks simpleCfg zeroStream row K c0 = .ok (ts0, c2) ∧ t ∈ ts0) ∧
      row.timestamp ≤ t.timestamp ∧ t.timestamp < row.timestamp + 60 ∧
      (row.Low ≤ t.bid ∧ t.bid ≤ row.High) ∧ (row.Low ≤ t.ask ∧ t.ask ≤ row.High) ∧
      999 / 1000 * row.Low - 1 / 20000 ≤ t.trade_price ∧
      t.trade_price ≤ 1001 / 1000 * row.High + 1 / 20000 := by
  have hrun : generate_ticks simpleCfg zeroStream [rawCandleD] none ⟨0, 0⟩ =
      .ok ([{ timestamp := 0, bid := 30, ask := 30, trade_price := 2997 / 100,
              volume := 9, side := Side.buy }], ⟨3, 2⟩) := by
    norm_num [generate_ticks, generate_loop, generate_candle_ticks, generate_midpath,
      allocate_volumes, midpath_values, vol_weights, normalsList, candle_num_ticks,
      candle_tick_list, synth_tick, generate_spread, dropna, linspaceAt, clip, trunc,
      round4, round_eq, simpleCfg, zeroStream, rawCandleD, List.range_succ,
      List.insertionSort, List.orderedInsert, min_self, max_self]
  refine ⟨by intro n; norm_num [simpleCfg, zeroStream],
    by intro n; norm_num [zeroStream], ?_⟩
  exact claim4_price_band simpleCfg zeroStream [rawCandleD] none ⟨0, 0⟩ _ _
    (by intro n; norm_num [simpleCfg, zeroStream])
    (by intro n; norm_num [zeroStream])
    (by intro row hrow
        simp only [dropna, rawCandleD, List.filterMap] at hrow
        simp at hrow
        rw [hrow]
        norm_num)
    (by intro row hrow
        simp only [dropna, rawCandleD, List.filterMap] at hrow
        simp at hrow
        rw [hrow]
        exact ⟨⟨300000, by norm_num⟩, ⟨300000, by norm_num⟩⟩)
    hrun

/-! ### C7 — timestamps: even spacing per candle, global ordering -/

theorem candle_tick_list_timestamp (cfg : GeneratorConfig) (ω : RandomStream) (c : StreamPos)
    (row : Candle) (k : ℕ) (mids : List ℚ) (vols : List ℤ) (i : ℕ)
    (hi : i < (candle_tick_list cfg ω c row k mids vols).length) :
    ((candle_tick_list cfg ω c row k mids vols).get ⟨i, hi⟩).timestamp =
      row.timestamp + i * (60 / (k : ℚ)) := by
  simp only [candle_tick_list, List.get_eq_getElem, List.getElem_map, List.getElem_range]
  rfl

theorem candle_tick_list_pairwise {cfg : GeneratorConfig} {ω : RandomStream}
    {c : StreamPos} {row : Candle} {k : ℕ} {mids : List ℚ} {vols : List ℤ}
    (hk : 1 ≤ k) :
    List.Pairwise (fun a b : Tick => a.timestamp < b.timestamp)
      (candle_tick_list cfg ω c row k mids vols) := by
  unfold candle_tick_list
  rw [List.pairwise_map]
  refine (List.pairwise_lt_range k).imp ?_
  intro i j hij
  have hkpos : (0 : ℚ) < (k : ℚ) := by exact_mod_cast hk
  have hd : (0 : ℚ) < 60 / (k : ℚ) := by positivity
  show (synth_tick cfg ω c row k mids vols i).timestamp <
    (synth_tick cfg ω c row k mids vols j).timestamp
  have hi : (synth_tick cfg ω c row k mids vols i).timestamp
      = row.timestamp + i * (60 / (k : ℚ)) := rfl
  have hj : (synth_tick cfg ω c row k mids vols j).timestamp
      = row.timestamp + j * (60 / (k : ℚ)) := rfl
  rw [hi, hj]
  have hij' : ((i : ℚ)) < (j : ℚ) := by exact_mod_cast hij
  nlinarith

/-- `all_ticks` is built strictly ascending in timestamp whenever the
retained candles are at least one minute apart, and every tick stays at
or after its first candle's start. -/
theorem generate_loop_sorted (cfg : GeneratorConfig) (ω : RandomStream)
    (dist : Option (List ℚ)) :
    ∀ (candles : List Candle) (j : ℕ) (c : StreamPos) (ts : List Tick) (c1 : StreamPos),
      List.Chain' (fun a b => a.timestamp + 60 ≤ b.timestamp) candles →
      generate_loop cfg ω dist candles j c = .ok (ts, c1) →
      List.Pairwise (fun a b : Tick => a.timestamp < b.timestamp) ts ∧
      ∀ t ∈ ts, ∀ row0 ∈ candles.head?, row0.timestamp ≤ t.timestamp := by
  intro candles
  induction candles with
  | nil =>
    intro j c ts c1 hchain h
    simp only [generate_loop, Except.ok.injEq, Prod.mk.injEq] at h
    rw [← h.1]
    simp
  | cons row rest ih =>
    intro j c ts c1 hchain h
    unfold generate_loop at h
    cases hc : generate_candle_ticks cfg ω row (candle_num_ticks cfg dist j) c with
    | error e => rw [hc] at h; simp at h
    | ok p =>
      obtain ⟨ts0, c2⟩ := p
      rw [hc] at h
      dsimp only at h
      cases hr : generate_loop cfg ω dist rest (j + 1) c2 with
      | error e => rw [hr] at h; simp at h
      | ok q =>
        obtain ⟨ts1, c3⟩ := q
        rw [hr] at h
        dsimp only at h
        simp only [Except.ok.injEq, Prod.mk.injEq] at h
        obtain ⟨mids, vols, cm, ca, hm, ha, hK1, -, hts0, -⟩ :=
          generate_candle_ticks_ok_elim hc
        have hk1 : 1 ≤ (candle_num_ticks cfg dist j).toNat := by omega
        have hb0 : ∀ t ∈ ts0, row.timestamp ≤ t.timestamp ∧
            t.timestamp < row.timestamp + 60 := by
          rw [hts0]
          exact candle_tick_list_time_bounds hk1
        have hp0 : List.Pairwise (fun a b : Tick => a.timestamp < b.timestamp) ts0 := by
          rw [hts0]
          exact candle_tick_list_pairwise hk1
        obtain ⟨hp1, hb1⟩ := ih (j + 1) c2 ts1 c3 (List.Chain'.tail hchain) hr
        have hcross : ∀ a ∈ ts0, ∀ b ∈ ts1, a.timestamp < b.timestamp := by
          intro a haa b hbb
          cases rest with
          | nil =>
            simp only [generate_loop, Except.ok.injEq, Prod.mk.injEq] at hr
            rw [← hr.1] at hbb
            simp at hbb
          | cons row2 rest2 =>
            have hgap : row.timestamp + 60 ≤ row2.timestamp :=
              List.chain'_cons.mp hchain |>.1
            have hbb2 : row2.timestamp ≤ b.timestamp := hb1 b hbb row2 rfl
            linarith [(hb0 a haa).2]
        constructor
        · rw [← h.1]
          exact List.pairwise_append.mpr ⟨hp0, hp1, hcross⟩
        · intro t ht row0 hrow0
          simp only [List.head?_cons, Option.mem_some_iff] at hrow0
          rw [← hrow0]
          rw [← h.1] at ht
          rcases List.mem_append.mp ht with h0 | h1
          · exact (hb0 t h0).1
          · cases rest with
            | nil =>
              simp only [generate_loop, Except.ok.injEq, Prod.mk.injEq] at hr
              rw [← hr.1] at h1
              simp at h1
            | cons row2 rest2 =>
              have hgap : row.timestamp + 60 ≤ row2.timestamp :=
                List.chain'_cons.mp hchain |>.1
              have : row2.timestamp ≤ t.timestamp := hb1 t h1 row2 rfl
              linarith

/-- C7: if the retained candles are at least one minute apart, then
(a) a successful `generate_ticks` run returns ticks strictly ascending
in timestamp across the whole session, and (b) within any successful
per-candle synthesis with count `K`, tick `i` is stamped exactly
`candle.timestamp + i·(60/K)` seconds — strictly increasing and evenly
spaced at `60/K` seconds. -/
theorem claim7_timestamps_ordered (cfg : GeneratorConfig) (ω : RandomStream)
    (raw : List RawCandle) (dist : Option (List ℚ)) (c : StreamPos)
    (ts : List Tick) (c1 : StreamPos)
    (hgap : List.Chain' (fun a b => a.timestamp + 60 ≤ b.timestamp) (dropna raw))
    (h : generate_ticks cfg ω raw dist c = .ok (ts, c1)) :
    List.Pairwise (fun a b : Tick => a.timestamp < b.timestamp) ts ∧
    ∀ (row : Candle) (K : ℤ) (c0 : StreamPos) (ts0 : List Tick) (c2 : StreamPos),
      generate_candle_ticks cfg ω row K c0 = .ok (ts0, c2) →
      ∀ i, (hi : i < ts0.length) →
        (ts0.get ⟨i, hi⟩).timestamp = row.timestamp + i * (60 / (K.toNat : ℚ)) := by
  constructor
  · unfold generate_ticks at h
    cases hl : generate_loop cfg ω dist (dropna raw) 0 c with
    | error e => rw [hl] at h; simp at h
    | ok p =>
      obtain ⟨ts2, c3⟩ := p
      rw [hl] at h
      dsimp only at h
      split at h
      · simp at h
      simp only [Except.ok.injEq, Prod.mk.injEq] at h
      obtain ⟨hp, -⟩ :=
        generate_loop_sorted cfg ω dist (dropna raw) 0 c ts2 c3 hgap hl
      have hsorted : List.Sorted tickLE ts2 :=
        hp.imp (fun hab => le_of_lt hab)
      rw [← h.1, hsorted.insertionSort_eq]
      exact hp
  · intro row K c0 ts0 c2 hc i hi
    obtain ⟨mids, vols, cm, ca, hm, ha, hK1, -, hts0, -⟩ :=
      generate_candle_ticks_ok_elim hc
    subst hts0
    exact candle_tick_list_timestamp cfg ω ca row K.toNat mids vols i hi

theorem claim7_witness :
    List.Chain' (fun a b : Candle => a.timestamp + 60 ≤ b.timestamp)
      (dropna [rawCandleA, rawCandleE]) ∧
    List.Pairwise (fun a b : Tick => a.timestamp < b.timestamp)
      [{ timestamp := 0, bid := 10, ask := 10, trade_price := 999 / 100,
         volume := 100, side := Side.buy },
       { timestamp := 60, bid := 10, ask := 10, trade_price := 999 / 100,
         volume := 100, side := Side.buy }] := by
  have hchain : List.Chain' (fun a b : Candle => a.timestamp + 60 ≤ b.timestamp)
      (dropna [rawCandleA, rawCandleE]) := by
    norm_num [dropna, rawCandleA, rawCandleE, List.filterMap_cons, List.filterMap_nil,
      List.chain'_cons, List.chain'_singleton]
  have hrun : generate_ticks simpleCfg zeroStream [rawCandleA, rawCandleE] none ⟨0, 0⟩ =
      .ok ([{ timestamp := 0, bid := 10, ask := 10, trade_price := 999 / 100,
              volume := 100, side := Side.buy },
            { timestamp := 60, bid := 10, ask := 10, trade_price := 999 / 100,
              volume := 100, side := Side.buy }], ⟨6, 4⟩) := by
    norm_num [generate_ticks, generate_loop, generate_candle_ticks, generate_midpath,
      allocate_volumes, midpath_values, vol_weights, normalsList, candle_num_ticks,
      candle_tick_list, synth_tick, generate_spread, dropna, linspaceAt, clip, trunc,
      round4, round_eq, simpleCfg, zeroStream, rawCandleA, rawCandleE, List.range_succ,
      List.insertionSort, List.orderedInsert, tickLE, min_self, max_self]
  exact ⟨hchain, (claim7_timestamps_ordered simpleCfg zeroStream [rawCandleA, rawCandleE]
    none ⟨0, 0⟩ _ _ hchain hrun).1⟩

/-! ### C1 — determinism and the consumed draw window -/

theorem normalsList_congr {ω₁ ω₂ : RandomStream} {c : StreamPos} {loc scale : ℚ} {k : ℕ}
    (hn : ∀ m, m < k → ω₂.norm (c.n + m) = ω₁.norm (c.n + m)) :
    normalsList ω₂ c loc scale k = normalsList ω₁ c loc scale k := by
  unfold normalsList
  apply List.map_congr_left
  intro i hi
  rw [hn i (List.mem_range.mp hi)]

theorem midpath_values_congr {cfg : GeneratorConfig} {ω₁ ω₂ : RandomStream} {row : Candle}
    {k : ℕ} {c : StreamPos}
    (hn : ∀ m, m < k → ω₂.norm (c.n + m) = ω₁.norm (c.n + m)) :
    midpath_values cfg ω₂ row k c = midpath_values cfg ω₁ row k c := by
  unfold midpath_values
  rw [normalsList_congr hn]

theorem generate_midpath_congr {cfg : GeneratorConfig} {ω₁ ω₂ : RandomStream} {row : Candle}
    {K : ℤ} {c : StreamPos}
    (hn : ∀ m, m < K.toNat → ω₂.norm (c.n + m) = ω₁.norm (c.n + m)) :
    generate_midpath cfg ω₂ row K c = generate_midpath cfg ω₁ row K c := by
  unfold generate_midpath
  rw [midpath_values_congr hn]

theorem vol_weights_congr {cfg : GeneratorConfig} {ω₁ ω₂ : RandomStream} {c : StreamPos}
    {k : ℕ} (hn : ∀ m, m < k → ω₂.norm (c.n + m) = ω₁.norm (c.n + m)) :
    vol_weights cfg ω₂ c k = vol_weights cfg ω₁ c k := by
  unfold vol_weights
  rw [normalsList_congr hn]

theorem allocate_volumes_congr {cfg : GeneratorConfig} {ω₁ ω₂ : RandomStream} {V : ℚ}
    {K : ℤ} {c : StreamPos}
    (hn : ∀ m, m < K.toNat → ω₂.norm (c.n + m) = ω₁.norm (c.n + m)) :
    allocate_volumes cfg ω₂ V K c = allocate_volumes cfg ω₁ V K c := by
  unfold allocate_volumes
  rw [vol_weights_congr hn]

theorem synth_tick_congr {cfg : GeneratorConfig} {ω₁ ω₂ : RandomStream} {c : StreamPos}
    {row : Candle} {k : ℕ} {mids : List ℚ} {vols : List ℤ} {i : ℕ}
    (hni : ω₂.norm (c.n + i) = ω₁.norm (c.n + i))
    (hu1 : ω₂.unif (c.u + 2 * i) = ω₁.unif (c.u + 2 * i))
    (hu2 : ω₂.unif (c.u + 2 * i + 1) = ω₁.unif (c.u + 2 * i + 1)) :
    synth_tick cfg ω₂ c row k mids vols i = synth_tick cfg ω₁ c row k mids vols i := by
  unfold synth_tick
  rw [hni, hu1, hu2]

theorem candle_tick_list_congr {cfg : GeneratorConfig} {ω₁ ω₂ : RandomStream} {c : StreamPos}
    {row : Candle} {k : ℕ} {mids : List ℚ} {vols : List ℤ}
    (hn : ∀ m, m < k → ω₂.norm (c.n + m) = ω₁.norm (c.n + m))
    (hu : ∀ m, m < 2 * k → ω₂.unif (c.u + m) = ω₁.unif (c.u + m)) :
    candle_tick_list cfg ω₂ c row k mids vols = candle_tick_list cfg ω₁ c row k mids vols := by
  unfold candle_tick_list
  apply List.map_congr_left
  intro i hi
  have hik := List.mem_range.mp hi
  exact synth_tick_congr (hn i hik) (hu (2 * i) (by omega)) (hu (2 * i + 1) (by omega))

/-- A successful per-candle synthesis reads the global stream only on
the window between its entry and exit positions: any realization that
agrees with `ω₁` there produces the same ticks and the same exit
position. -/
theorem generate_candle_ticks_congr {cfg : GeneratorConfig} {ω₁ ω₂ : RandomStream}
    {row : Candle} {K : ℤ} {c : StreamPos} {ts0 : List Tick} {c1 : StreamPos}
    (h : generate_candle_ticks cfg ω₁ row K c = .ok (ts0, c1))
    (hn : ∀ m, c.n ≤ m → m < c1.n → ω₂.norm m = ω₁.norm m)
    (hu : ∀ m, c.u ≤ m → m < c1.u → ω₂.unif m = ω₁.unif m) :
    generate_candle_ticks cfg ω₂ row K c = .ok (ts0, c1) := by
  obtain ⟨mids, vols, cm, ca, hm, ha, hK1, hσ, hts, hc1⟩ := generate_candle_ticks_ok_elim h
  obtain ⟨hK0, hlh, hmids, hcm⟩ := generate_midpath_ok_elim hm
  obtain ⟨-, hσv, hvlen, hca⟩ := allocate_volumes_ok_elim ha
  subst hcm
  subst hca
  subst hc1
  subst hts
  dsimp only at hn hu ⊢
  have hn1 : ∀ m, m < K.toNat → ω₂.norm (c.n + m) = ω₁.norm (c.n + m) := by
    intro m hm'
    exact hn _ (by omega) (by omega)
  have hn2 : ∀ m, m < K.toNat →
      ω₂.norm ((⟨c.n + K.toNat, c.u⟩ : StreamPos).n + m) =
      ω₁.norm ((⟨c.n + K.toNat, c.u⟩ : StreamPos).n + m) := by
    intro m hm'
    exact hn _ (by dsimp; omega) (by dsimp; omega)
  have hn3 : ∀ m, m < K.toNat →
      ω₂.norm ((⟨c.n + K.toNat + K.toNat, c.u⟩ : StreamPos).n + m) =
      ω₁.norm ((⟨c.n + K.toNat + K.toNat, c.u⟩ : StreamPos).n + m) := by
    intro m hm'
    exact hn _ (by dsimp only; omega) (by dsimp only; omega)
  have hu3 : ∀ m, m < 2 * K.toNat →
      ω₂.unif ((⟨c.n + K.toNat + K.toNat, c.u⟩ : StreamPos).u + m) =
      ω₁.unif ((⟨c.n + K.toNat + K.toNat, c.u⟩ : StreamPos).u + m) := by
    intro m hm'
    exact hu _ (by dsimp only; omega) (by dsimp only; omega)
  unfold generate_candle_ticks
  rw [generate_midpath_congr hn1, hm]
  dsimp only
  rw [allocate_volumes_congr hn2, ha]
  dsimp only
  rw [if_neg (show ¬ K = 0 by omega), if_neg (not_lt.mpr hσ)]
  rw [candle_tick_list_congr hn3 hu3]

/-- A successful per-candle synthesis only moves the stream position
forward. -/
theorem generate_candle_ticks_pos_mono {cfg : GeneratorConfig} {ω : RandomStream}
    {row : Candle} {K : ℤ} {c : StreamPos} {ts0 : List Tick} {c1 : StreamPos}
    (h : generate_candle_ticks cfg ω row K c = .ok (ts0, c1)) :
    c.n ≤ c1.n ∧ c.u ≤ c1.u := by
  obtain ⟨mids, vols, cm, ca, hm, ha, -, -, -, hc1⟩ := generate_candle_ticks_ok_elim h
  obtain ⟨-, -, -, hcm⟩ := generate_midpath_ok_elim hm
  obtain ⟨-, -, -, hca⟩ := allocate_volumes_ok_elim ha
  subst hcm
  subst hca
  subst hc1
  dsimp only
  exact ⟨by omega, by omega⟩

/-- The candle loop only moves the stream position forward. -/
theorem generate_loop_pos_mono (cfg : GeneratorConfig) (ω : RandomStream)
    (dist : Option (List ℚ)) :
    ∀ (candles : List Candle) (j : ℕ) (c : StreamPos) (ts : List Tick) (c1 : StreamPos),
      generate_loop cfg ω dist candles j c = .ok (ts, c1) →
      c.n ≤ c1.n ∧ c.u ≤ c1.u := by
  intro candles
  induction candles with
  | nil =>
    intro j c ts c1 h
    simp only [generate_loop, Except.ok.injEq, Prod.mk.injEq] at h
    rw [← h.2]
    exact ⟨le_refl _, le_refl _⟩
  | cons row rest ih =>
    intro j c ts c1 h
    unfold generate_loop at h
    cases hc : generate_candle_ticks cfg ω row (candle_num_ticks cfg dist j) c with
    | error e => rw [hc] at h; simp at h
    | ok p =>
      obtain ⟨ts0, c2⟩ := p
      rw [hc] at h
      dsimp only at h
      cases hr : generate_loop cfg ω dist rest (j + 1) c2 with
      | error e => rw [hr] at h; simp at h
      | ok q =>
        obtain ⟨ts1, c3⟩ := q
        rw [hr] at h
        dsimp only at h
        simp only [Except.ok.injEq, Prod.mk.injEq] at h
        obtain ⟨hm1, hm2⟩ := generate_candle_ticks_pos_mono hc
        obtain ⟨ih1, ih2⟩ := ih (j + 1) c2 ts1 c3 hr
        rw [← h.2]
        exact ⟨by omega, by omega⟩

/-- The candle loop reads the global stream only on the window between
its entry and exit positions. -/
theorem generate_loop_congr (cfg : GeneratorConfig) (ω₁ ω₂ : RandomStream)
    (dist : Option (List ℚ)) :
    ∀ (candles : List Candle) (j : ℕ) (c : StreamPos) (ts : List Tick) (c1 : StreamPos),
      generate_loop cfg ω₁ dist candles j c = .ok (ts, c1) →
      (∀ m, c.n ≤ m → m < c1.n → ω₂.norm m = ω₁.norm m) →
      (∀ m, c.u ≤ m → m < c1.u → ω₂.unif m = ω₁.unif m) →
      generate_loop cfg ω₂ dist candles j c = .ok (ts, c1) := by
  intro candles
  induction candles with
  | nil =>
    intro j c ts c1 h hn hu
    simpa only [generate_loop] using h
  | cons row rest ih =>
    intro j c ts c1 h hn hu
    unfold generate_loop at h
    cases hc : generate_candle_ticks cfg ω₁ row (candle_num_ticks cfg dist j) c with
    | error e => rw [hc] at h; simp at h
    | ok p =>
      obtain ⟨ts0, c2⟩ := p
      rw [hc] at h
      dsimp only at h
      cases hr : generate_loop cfg ω₁ dist rest (j + 1) c2 with
      | error e => rw [hr] at h; simp at h
      | ok q =>
        obtain ⟨ts1, c3⟩ := q
        rw [hr] at h
        dsimp only at h
        simp only [Except.ok.injEq, Prod.mk.injEq] at h
        obtain ⟨hts, hc31⟩ := h
        obtain ⟨mono1, mono2⟩ := generate_loop_pos_mono cfg ω₁ dist rest (j + 1) c2 ts1 c3 hr
        obtain ⟨cmono1, cmono2⟩ := generate_candle_ticks_pos_mono hc
        have h2n : c2.n ≤ c1.n := by rw [← hc31]; exact mono1
        have h2u : c2.u ≤ c1.u := by rw [← hc31]; exact mono2
        have hcand2 : generate_candle_ticks cfg ω₂ row (candle_num_ticks cfg dist j) c =
            .ok (ts0, c2) :=
          generate_candle_ticks_congr hc
            (fun m hma hmb => hn m hma (by omega))
            (fun m hma hmb => hu m hma (by omega))
        have hr1 : generate_loop cfg ω₁ dist rest (j + 1) c2 = .ok (ts1, c1) := by
          rw [hr, hc31]
        have hrest2 : generate_loop cfg ω₂ dist rest (j + 1) c2 = .ok (ts1, c1) :=
          ih (j + 1) c2 ts1 c1 hr1
            (fun m hma hmb => hn m (by omega) hmb)
            (fun m hma hmb => hu m (by omega) hmb)
        unfold generate_loop
        rw [hcand2]
        dsimp only
        rw [hrest2]
        dsimp only
        rw [hts]

/-- C1 counterexample: `generate_ticks` does not reseed, so a second
invocation of the same generator instance with the same inputs resumes
the global stream where the first stopped and returns different ticks
(bid 9.99 then 9.975 under a stream whose `n`-th draw is `n`). -/
theorem claim1_cex_repeat_invocation_differs :
    generate_ticks repeatCfg indexStream [rawCandleA] none ⟨0, 0⟩ =
      .ok ([{ timestamp := 0, bid := 999 / 100, ask := 1001 / 100, trade_price := 10,
              volume := 100, side := Side.buy }], ⟨3, 2⟩) ∧
    generate_ticks repeatCfg indexStream [rawCandleA] none ⟨3, 2⟩ =
      .ok ([{ timestamp := 0, bid := 399 / 40, ask := 401 / 40, trade_price := 2003 / 200,
              volume := 100, side := Side.buy }], ⟨6, 4⟩) ∧
    ({ timestamp := 0, bid := 999 / 100, ask := 1001 / 100, trade_price := 10,
       volume := 100, side := Side.buy } : Tick) ≠
      { timestamp := 0, bid := 399 / 40, ask := 401 / 40, trade_price := 2003 / 200,
        volume := 100, side := Side.buy } := by
  refine ⟨?_, ?_, ?_⟩
  · norm_num [generate_ticks, generate_loop, generate_candle_ticks, generate_midpath,
      allocate_volumes, midpath_values, vol_weights, normalsList, candle_num_ticks,
      candle_tick_list, synth_tick, generate_spread, dropna, linspaceAt, clip, trunc,
      round4, round_eq, repeatCfg, indexStream, rawCandleA, List.range_succ,
      List.insertionSort, List.orderedInsert, min_self, max_self]
  · norm_num [generate_ticks, generate_loop, generate_candle_ticks, generate_midpath,
      allocate_volumes, midpath_values, vol_weights, normalsList, candle_num_ticks,
      candle_tick_list, synth_tick, generate_spread, dropna, linspaceAt, clip, trunc,
      round4, round_eq, repeatCfg, indexStream, rawCandleA, List.range_succ,
      List.insertionSort, List.orderedInsert, min_self, max_self]
  · simp only [ne_eq, Tick.mk.injEq]
    norm_num

/-- C1 amended: a single invocation's output is fully determined by
the stream realization on the finite window of draws it consumes — so
two invocations from equal stream positions (e.g. two freshly seeded
instances with the same seed) return byte-identical output — but
`generate_ticks` itself never reseeds, so repeated invocations of the
same instance resume the stream and need not be identical. -/
theorem claim1_output_determined_by_consumed_draws (cfg : GeneratorConfig)
    (ω₁ ω₂ : RandomStream) (raw : List RawCandle) (dist : Option (List ℚ))
    (c : StreamPos) (ts : List Tick) (c1 : StreamPos)
    (h : generate_ticks cfg ω₁ raw dist c = .ok (ts, c1))
    (hn : ∀ m, c.n ≤ m → m < c1.n → ω₂.norm m = ω₁.norm m)
    (hu : ∀ m, c.u ≤ m → m < c1.u → ω₂.unif m = ω₁.unif m) :
    generate_ticks cfg ω₂ raw dist c = .ok (ts, c1) := by
  unfold generate_ticks at h ⊢
  cases hl : generate_loop cfg ω₁ dist (dropna raw) 0 c with
  | error e => rw [hl] at h; simp at h
  | ok p =>
    obtain ⟨ts2, c3⟩ := p
    rw [hl] at h
    dsimp only at h
    split at h
    · simp at h
    rename_i hne
    simp only [Except.ok.injEq, Prod.mk.injEq] at h
    obtain ⟨hts, hc31⟩ := h
    have hl1 : generate_loop cfg ω₁ dist (dropna raw) 0 c = .ok (ts2, c1) := by
      rw [hl, hc31]
    rw [generate_loop_congr cfg ω₁ ω₂ dist (dropna raw) 0 c ts2 c1 hl1 hn hu]
    dsimp only
    rw [if_neg hne, hts]

theorem claim1_witness :
    generate_ticks repeatCfg indexStream [rawCandleA] none ⟨0, 0⟩ =
      .ok ([{ timestamp := 0, bid := 999 / 100, ask := 1001 / 100, trade_price := 10,
              volume := 100, side := Side.buy }], ⟨3, 2⟩) ∧
    generate_ticks repeatCfg alteredStream [rawCandleA] none ⟨0, 0⟩ =
      .ok ([{ timestamp := 0, bid := 999 / 100, ask := 1001 / 100, trade_price := 10,
              volume := 100, side := Side.buy }], ⟨3, 2⟩) := by
  have hrun : generate_ticks repeatCfg indexStream [rawCandleA] none ⟨0, 0⟩ =
      .ok ([{ timestamp := 0, bid := 999 / 100, ask := 1001 / 100, trade_price := 10,
              volume := 100, side := Side.buy }], ⟨3, 2⟩) := by
    norm_num [generate_ticks, generate_loop, generate_candle_ticks, generate_midpath,
      allocate_volumes, midpath_values, vol_weights, normalsList, candle_num_ticks,
      candle_tick_list, synth_tick, generate_spread, dropna, linspaceAt, clip, trunc,
      round4, round_eq, repeatCfg, indexStream, rawCandleA, List.range_succ,
      List.insertionSort, List.orderedInsert, min_self, max_self]
  refine ⟨hrun, ?_⟩
  apply claim1_output_determined_by_consumed_draws repeatCfg indexStream alteredStream
    [rawCandleA] none ⟨0, 0⟩ _ _ hrun
  · intro m hm1 hm2
    interval_cases m <;> norm_num [alteredStream, indexStream]
  · intro m hm1 hm2
    interval_cases m <;> norm_num [alteredStream, indexStream]
